import Mathlib

/-!
Shallow embedding of the `greed_staking` program
(src/programs/greed-staking/src/lib.rs): a custodial staking ledger with
one pool per token mint, per-depositor `UserStake` positions, and three
entry points — pool initialization, `stake`, and `unstake` — using
checked u64 arithmetic.

Machine integers are modelled as `Nat` with explicit `2^64` bounds in the
checked operations; `i64` timestamps are modelled as `Int`.  Account
addresses (`Pubkey`) are modelled as `Nat`, and the deterministic PDA
derivation for a depositor's `UserStake` account as an injective pairing
function.  The host runtime's transaction model (a failed instruction
commits nothing) is modelled by the `Except`-valued committed semantics,
while the `*Raw` functions expose the sequential execution of the handler
body so that "fails before funds move" properties can be stated.
-/

namespace GreedStaking

/-- Largest value representable in a `u64`. -/
def U64_MAX : Nat := 2 ^ 64 - 1

/-- Rust `u64::checked_add`: `none` exactly when the sum leaves the u64 range. -/
def checked_add (a b : Nat) : Option Nat :=
  if a + b ≤ U64_MAX then some (a + b) else none

/-- Rust `u64::checked_sub`: `none` exactly when the subtraction would go negative. -/
def checked_sub (a b : Nat) : Option Nat :=
  if b ≤ a then some (a - b) else none

/-- Account addresses / public keys, modelled as naturals. -/
abbrev Pubkey := Nat

/-- The `StakePool` account (lib.rs lines 205-214). -/
structure StakePool where
  authority : Pubkey
  token_mint : Pubkey
  vault : Pubkey
  total_staked : Nat
  bump : Nat
  vault_bump : Nat
deriving DecidableEq, Repr

/-- The `UserStake` account (lib.rs lines 216-223). -/
structure UserStake where
  owner : Pubkey
  amount : Nat
  staked_at : Int
  bump : Nat
deriving DecidableEq, Repr

/-- The `StakingError` enum (lib.rs lines 225-235). -/
inductive StakingError
  | ZeroAmount
  | NoStake
  | Overflow
  | Underflow
deriving DecidableEq, Repr

/-- Everything an instruction can fail with: a `StakingError` raised by the
handler body, a failed SPL token transfer (insufficient source balance), or
an Anchor account-constraint violation (wrong PDA seeds, failed `constraint`,
or a required account that does not exist). -/
inductive ProgErr
  | staking (e : StakingError)
  | transferFailed
  | constraintViolation
deriving DecidableEq, Repr

/-- The SPL token transfer collaborator: moves `amount` from `src` to `dst`,
failing (moving nothing) when the source balance is insufficient. -/
def transfer (src dst amount : Nat) : Option (Nat × Nat) :=
  if amount ≤ src then some (src - amount, dst + amount) else none

/-- The mutable accounts a single `stake`/`unstake` call touches: the pool,
the caller's position, the vault's token balance and the caller's external
token balance. -/
structure StakeCtx where
  pool : StakePool
  user_stake : UserStake
  vaultBalance : Nat
  userTokenBalance : Nat
deriving DecidableEq, Repr

/-- The body of `initialize` (lib.rs lines 11-22): the new pool records the
supplied authority, mint, vault and bumps, and starts with `total_staked = 0`.
(The "pool already exists" failure is Anchor's `init` account check, which
runs before this body and creates nothing on failure.) -/
def initPool (authority token_mint vault bump vault_bump : Nat) : StakePool :=
  { authority := authority
    token_mint := token_mint
    vault := vault
    total_staked := 0
    bump := bump
    vault_bump := vault_bump }

/-- The `if user_stake.amount == 0 { set owner, staked_at } else { staked_at }`
branch of `stake` (lib.rs lines 42-49).  Both branches set `staked_at` to the
current clock and neither touches `amount`. -/
def warmupReset (us : UserStake) (userKey : Pubkey) (now : Int) : UserStake :=
  if us.amount = 0 then
    { us with owner := userKey, staked_at := now }
  else
    { us with staked_at := now }

/-- Sequential execution of the `stake` handler body (lib.rs lines 25-59),
returning the accounts as mutated so far together with the error, if any.
Order of effects matches the source: the `amount > 0` require, the
user→vault token transfer, the owner/`staked_at` update, the checked add on
the position amount (then `bump`), and finally the checked add on the pool
total. -/
def stakeRaw (ctx : StakeCtx) (userKey : Pubkey) (now : Int) (usBump : Nat)
    (amount : Nat) : StakeCtx × Option ProgErr :=
  if amount = 0 then (ctx, some (.staking .ZeroAmount))
  else
    match transfer ctx.userTokenBalance ctx.vaultBalance amount with
    | none => (ctx, some .transferFailed)
    | some (ub, vb) =>
      match checked_add (warmupReset ctx.user_stake userKey now).amount amount with
      | none =>
        ({ ctx with userTokenBalance := ub, vaultBalance := vb
                    user_stake := warmupReset ctx.user_stake userKey now },
         some (.staking .Overflow))
      | some newAmt =>
        match checked_add ctx.pool.total_staked amount with
        | none =>
          ({ ctx with userTokenBalance := ub, vaultBalance := vb
                      user_stake :=
                        { warmupReset ctx.user_stake userKey now with
                            amount := newAmt, bump := usBump } },
           some (.staking .Overflow))
        | some newTotal =>
          ({ ctx with userTokenBalance := ub, vaultBalance := vb
                      user_stake :=
                        { warmupReset ctx.user_stake userKey now with
                            amount := newAmt, bump := usBump }
                      pool := { ctx.pool with total_staked := newTotal } },
           none)

/-- Sequential execution of the `unstake` handler body (lib.rs lines 62-95):
the `amount > 0` require, the vault→user transfer of the entire balance, the
checked subtraction from the pool total, and zeroing of the position. -/
def unstakeRaw (ctx : StakeCtx) : StakeCtx × Option ProgErr :=
  if ctx.user_stake.amount = 0 then (ctx, some (.staking .NoStake))
  else
    match transfer ctx.vaultBalance ctx.userTokenBalance ctx.user_stake.amount with
    | none => (ctx, some .transferFailed)
    | some (vb, ub) =>
      match checked_sub ctx.pool.total_staked ctx.user_stake.amount with
      | none =>
        ({ ctx with vaultBalance := vb, userTokenBalance := ub },
         some (.staking .Underflow))
      | some newTotal =>
        ({ ctx with vaultBalance := vb, userTokenBalance := ub
                    pool := { ctx.pool with total_staked := newTotal }
                    user_stake := { ctx.user_stake with amount := 0, staked_at := 0 } },
         none)

/-- Committed (transactional) semantics of `stake`: the host commits the
mutations only when the handler succeeds; on any error nothing changes. -/
def stakeCommit (ctx : StakeCtx) (userKey : Pubkey) (now : Int) (usBump : Nat)
    (amount : Nat) : Except ProgErr StakeCtx :=
  match stakeRaw ctx userKey now usBump amount with
  | (_, some e) => .error e
  | (c, none) => .ok c

/-- Committed (transactional) semantics of `unstake`. -/
def unstakeCommit (ctx : StakeCtx) : Except ProgErr StakeCtx :=
  match unstakeRaw ctx with
  | (_, some e) => .error e
  | (c, none) => .ok c

/-- The deterministic PDA derivation of a depositor's `UserStake` account from
the pool address and the depositor's key
(`seeds = [b"user_stake", stake_pool.key(), user.key()]`), modelled as an
injective pairing (collision resistance). -/
def userStakeAddress (poolKey user : Pubkey) : Pubkey := Nat.pair poolKey user

/-- A freshly created (zero-initialized) `UserStake` account, as produced by
Anchor's `init_if_needed` before the handler body runs. -/
def freshUserStake : UserStake :=
  { owner := 0, amount := 0, staked_at := 0, bump := 0 }

/-- Association-list lookup of a `UserStake` account by address. -/
def lookupStake : List (Pubkey × UserStake) → Pubkey → Option UserStake
  | [], _ => none
  | (k, v) :: rest, a => if k = a then some v else lookupStake rest a

/-- Write back a `UserStake` account: replace the entry at this address, or
create it if absent. -/
def setStake : List (Pubkey × UserStake) → Pubkey → UserStake → List (Pubkey × UserStake)
  | [], a, v => [(a, v)]
  | (k, w) :: rest, a, v =>
    if k = a then (a, v) :: rest else (k, w) :: setStake rest a v

/-- Sum of `amount` over all stored `UserStake` positions. -/
def sumAmounts (l : List (Pubkey × UserStake)) : Nat :=
  (l.map (fun p => p.2.amount)).sum

/-- Global on-chain state of one pool: the pool account (at address
`poolKey`), all existing `UserStake` accounts keyed by their address, and the
vault's token balance. -/
structure ProgramState where
  poolKey : Pubkey
  pool : StakePool
  stakes : List (Pubkey × UserStake)
  vaultBalance : Nat
deriving DecidableEq, Repr

/-- State right after a successful `initialize` instruction: a fresh pool, no
user positions, an empty vault. -/
def initState (poolKey authority token_mint vault bump vault_bump : Nat) :
    ProgramState :=
  { poolKey := poolKey
    pool := initPool authority token_mint vault bump vault_bump
    stakes := []
    vaultBalance := 0 }

/-- The full `stake` instruction: Anchor first verifies that the passed
`user_stake` account is the PDA derived from the pool and the signing caller
(lib.rs lines 141-148); `init_if_needed` supplies a zeroed account when none
exists; then the handler body runs transactionally.  `userBal` is the
caller's external token balance. -/
def stakeIx (s : ProgramState) (caller targetAddr : Pubkey) (userBal : Nat)
    (now : Int) (usBump : Nat) (amount : Nat) : Except ProgErr ProgramState :=
  if targetAddr = userStakeAddress s.poolKey caller then
    match stakeCommit
        { pool := s.pool
          user_stake := (lookupStake s.stakes targetAddr).getD freshUserStake
          vaultBalance := s.vaultBalance
          userTokenBalance := userBal } caller now usBump amount with
    | .error e => .error e
    | .ok c =>
      .ok { s with pool := c.pool
                   vaultBalance := c.vaultBalance
                   stakes := setStake s.stakes targetAddr c.user_stake }
  else .error .constraintViolation

/-- The full `unstake` instruction: the `user_stake` account must exist (it is
deserialized, not created — lib.rs lines 180-186), must be the PDA derived
from the pool and the caller, and must satisfy the
`constraint = user_stake.owner == user.key()` check; then the handler body
runs transactionally. -/
def unstakeIx (s : ProgramState) (caller targetAddr : Pubkey) (userBal : Nat) :
    Except ProgErr ProgramState :=
  match lookupStake s.stakes targetAddr with
  | none => .error .constraintViolation
  | some us =>
    if targetAddr = userStakeAddress s.poolKey caller then
      if us.owner = caller then
        match unstakeCommit
            { pool := s.pool
              user_stake := us
              vaultBalance := s.vaultBalance
              userTokenBalance := userBal } with
        | .error e => .error e
        | .ok c =>
          .ok { s with pool := c.pool
                       vaultBalance := c.vaultBalance
                       stakes := setStake s.stakes targetAddr c.user_stake }
      else .error .constraintViolation
    else .error .constraintViolation

/-- States reachable by any sequence of initialization, successful stakes and
successful unstakes (failed instructions commit nothing, so they do not move
the state). -/
inductive Reachable : ProgramState → Prop
  | init (poolKey authority token_mint vault bump vault_bump : Nat) :
      Reachable (initState poolKey authority token_mint vault bump vault_bump)
  | stake (s s' : ProgramState) (caller targetAddr : Pubkey) (userBal : Nat)
      (now : Int) (usBump amount : Nat) :
      Reachable s →
      stakeIx s caller targetAddr userBal now usBump amount = .ok s' →
      Reachable s'
  | unstake (s s' : ProgramState) (caller targetAddr : Pubkey) (userBal : Nat) :
      Reachable s →
      unstakeIx s caller targetAddr userBal = .ok s' →
      Reachable s'

/-! ## Basic facts about the handler bodies -/

theorem warmupReset_amount (us : UserStake) (u : Pubkey) (now : Int) :
    (warmupReset us u now).amount = us.amount := by
  unfold warmupReset; split <;> rfl

theorem warmupReset_staked_at (us : UserStake) (u : Pubkey) (now : Int) :
    (warmupReset us u now).staked_at = now := by
  unfold warmupReset; split <;> rfl

theorem warmupReset_owner (us : UserStake) (u : Pubkey) (now : Int) :
    (warmupReset us u now).owner = if us.amount = 0 then u else us.owner := by
  unfold warmupReset; split <;> simp_all

theorem warmupReset_bump (us : UserStake) (u : Pubkey) (now : Int) :
    (warmupReset us u now).bump = us.bump := by
  unfold warmupReset; split <;> rfl

/-- Everything a successful run of the `stake` body guarantees about the
final accounts. -/
theorem stakeRaw_ok_spec {ctx : StakeCtx} {u : Pubkey} {now : Int} {b amt : Nat}
    {c : StakeCtx} (h : stakeRaw ctx u now b amt = (c, none)) :
    0 < amt ∧ amt ≤ ctx.userTokenBalance ∧
    ctx.user_stake.amount + amt ≤ U64_MAX ∧
    ctx.pool.total_staked + amt ≤ U64_MAX ∧
    c.pool.total_staked = ctx.pool.total_staked + amt ∧
    c.pool.authority = ctx.pool.authority ∧
    c.pool.token_mint = ctx.pool.token_mint ∧
    c.pool.vault = ctx.pool.vault ∧
    c.pool.bump = ctx.pool.bump ∧
    c.pool.vault_bump = ctx.pool.vault_bump ∧
    c.user_stake.amount = ctx.user_stake.amount + amt ∧
    c.user_stake.staked_at = now ∧
    c.user_stake.owner = (if ctx.user_stake.amount = 0 then u else ctx.user_stake.owner) ∧
    c.user_stake.bump = b ∧
    c.vaultBalance = ctx.vaultBalance + amt ∧
    c.userTokenBalance = ctx.userTokenBalance - amt := by
  unfold stakeRaw at h
  split at h
  · simp at h
  next hamt =>
    rcases htr : transfer ctx.userTokenBalance ctx.vaultBalance amt with _ | ⟨ub, vb⟩ <;>
      rw [htr] at h
    · simp at h
    unfold transfer at htr
    split at htr
    case isFalse => simp at htr
    next hle =>
    rcases hca : checked_add (warmupReset ctx.user_stake u now).amount amt with _ | newAmt <;>
      rw [hca] at h
    · simp at h
    unfold checked_add at hca
    split at hca
    case isFalse => simp at hca
    next hle1 =>
    rcases hca2 : checked_add ctx.pool.total_staked amt with _ | newTotal <;>
      rw [hca2] at h
    · simp at h
    unfold checked_add at hca2
    split at hca2
    case isFalse => simp at hca2
    next hle2 =>
    rw [Prod.mk.injEq] at h
    obtain ⟨hc, -⟩ := h
    subst hc
    rw [warmupReset_amount] at hle1
    simp only [Option.some.injEq] at hca hca2
    simp only [Prod.mk.injEq, Option.some.injEq] at htr
    refine ⟨Nat.pos_of_ne_zero hamt, hle, hle1, hle2, ?_⟩
    simp [← hca, ← hca2, ← htr.1, ← htr.2, warmupReset_amount, warmupReset_staked_at,
      warmupReset_owner, warmupReset_bump]

/-- Everything a successful run of the `unstake` body guarantees about the
final accounts. -/
theorem unstakeRaw_ok_spec {ctx c : StakeCtx} (h : unstakeRaw ctx = (c, none)) :
    0 < ctx.user_stake.amount ∧
    ctx.user_stake.amount ≤ ctx.vaultBalance ∧
    ctx.user_stake.amount ≤ ctx.pool.total_staked ∧
    c.pool.total_staked = ctx.pool.total_staked - ctx.user_stake.amount ∧
    c.pool.authority = ctx.pool.authority ∧
    c.pool.token_mint = ctx.pool.token_mint ∧
    c.pool.vault = ctx.pool.vault ∧
    c.pool.bump = ctx.pool.bump ∧
    c.pool.vault_bump = ctx.pool.vault_bump ∧
    c.user_stake.amount = 0 ∧
    c.user_stake.staked_at = 0 ∧
    c.user_stake.owner = ctx.user_stake.owner ∧
    c.user_stake.bump = ctx.user_stake.bump ∧
    c.vaultBalance = ctx.vaultBalance - ctx.user_stake.amount ∧
    c.userTokenBalance = ctx.userTokenBalance + ctx.user_stake.amount := by
  unfold unstakeRaw at h
  split at h
  · simp at h
  next hamt =>
    rcases htr : transfer ctx.vaultBalance ctx.userTokenBalance ctx.user_stake.amount
        with _ | ⟨vb, ub⟩ <;> rw [htr] at h
    · simp at h
    unfold transfer at htr
    split at htr
    case isFalse => simp at htr
    next hle =>
    rcases hcs : checked_sub ctx.pool.total_staked ctx.user_stake.amount
        with _ | newTotal <;> rw [hcs] at h
    · simp at h
    unfold checked_sub at hcs
    split at hcs
    case isFalse => simp at hcs
    next hle2 =>
    rw [Prod.mk.injEq] at h
    obtain ⟨hc, -⟩ := h
    subst hc
    simp only [Option.some.injEq] at hcs
    simp only [Prod.mk.injEq, Option.some.injEq] at htr
    refine ⟨Nat.pos_of_ne_zero hamt, hle, hle2, ?_⟩
    simp [← hcs, ← htr.1, ← htr.2]

theorem stakeCommit_ok_iff {ctx : StakeCtx} {u : Pubkey} {now : Int}
    {b amt : Nat} {c : StakeCtx} :
    stakeCommit ctx u now b amt = .ok c ↔ stakeRaw ctx u now b amt = (c, none) := by
  unfold stakeCommit
  rcases hr : stakeRaw ctx u now b amt with ⟨c', e⟩
  cases e <;> simp

theorem stakeCommit_error_iff {ctx : StakeCtx} {u : Pubkey} {now : Int}
    {b amt : Nat} {e : ProgErr} :
    stakeCommit ctx u now b amt = .error e ↔
      (stakeRaw ctx u now b amt).2 = some e := by
  unfold stakeCommit
  rcases hr : stakeRaw ctx u now b amt with ⟨c', e'⟩
  cases e' <;> simp

theorem unstakeCommit_ok_iff {ctx c : StakeCtx} :
    unstakeCommit ctx = .ok c ↔ unstakeRaw ctx = (c, none) := by
  unfold unstakeCommit
  rcases hr : unstakeRaw ctx with ⟨c', e⟩
  cases e <;> simp

theorem unstakeCommit_error_iff {ctx : StakeCtx} {e : ProgErr} :
    unstakeCommit ctx = .error e ↔ (unstakeRaw ctx).2 = some e := by
  unfold unstakeCommit
  rcases hr : unstakeRaw ctx with ⟨c', e'⟩
  cases e' <;> simp

/-! ## Association-list lemmas for the account store -/

theorem sumAmounts_nil : sumAmounts [] = 0 := rfl

theorem sumAmounts_cons (k : Pubkey) (w : UserStake) (l : List (Pubkey × UserStake)) :
    sumAmounts ((k, w) :: l) = w.amount + sumAmounts l := by
  simp [sumAmounts]

theorem sumAmounts_setStake (l : List (Pubkey × UserStake)) (a : Pubkey)
    (v : UserStake) :
    sumAmounts (setStake l a v) + ((lookupStake l a).getD freshUserStake).amount
      = sumAmounts l + v.amount := by
  induction l with
  | nil => simp [setStake, lookupStake, sumAmounts_cons, sumAmounts_nil, freshUserStake]
  | cons hd tl ih =>
    obtain ⟨k, w⟩ := hd
    by_cases hk : k = a
    · subst hk
      simp [setStake, lookupStake, sumAmounts_cons]
      omega
    · simp only [setStake, lookupStake, hk, if_false, sumAmounts_cons]
      omega

theorem lookupStake_le_sumAmounts {l : List (Pubkey × UserStake)} {a : Pubkey}
    {us : UserStake} (h : lookupStake l a = some us) :
    us.amount ≤ sumAmounts l := by
  induction l with
  | nil => simp [lookupStake] at h
  | cons hd tl ih =>
    obtain ⟨k, w⟩ := hd
    rw [sumAmounts_cons]
    by_cases hk : k = a
    · subst hk
      simp [lookupStake] at h
      subst h
      omega
    · simp [lookupStake, hk] at h
      exact le_trans (ih h) (Nat.le_add_left _ _)

theorem lookupStake_setStake {l : List (Pubkey × UserStake)} {a₀ a : Pubkey}
    {v us : UserStake} (h : lookupStake (setStake l a₀ v) a = some us) :
    (a = a₀ ∧ us = v) ∨ lookupStake l a = some us := by
  induction l with
  | nil =>
    simp only [setStake, lookupStake] at h
    by_cases ha : a₀ = a
    · rw [if_pos ha] at h
      exact Or.inl ⟨ha.symm, (Option.some.inj h).symm⟩
    · rw [if_neg ha] at h
      exact absurd h (by simp)
  | cons hd tl ih =>
    obtain ⟨k, w⟩ := hd
    by_cases hk : k = a₀
    · simp only [setStake, if_pos hk, lookupStake] at h
      by_cases ha : a₀ = a
      · rw [if_pos ha] at h
        exact Or.inl ⟨ha.symm, (Option.some.inj h).symm⟩
      · rw [if_neg ha] at h
        refine Or.inr ?_
        simp only [lookupStake, if_neg (fun hka => ha (hk.symm.trans hka))]
        exact h
    · simp only [setStake, if_neg hk, lookupStake] at h
      by_cases hka : k = a
      · rw [if_pos hka] at h
        refine Or.inr ?_
        simp only [lookupStake, if_pos hka]
        exact h
      · rw [if_neg hka] at h
        rcases ih h with h' | h'
        · exact Or.inl h'
        · refine Or.inr ?_
          simp only [lookupStake, if_neg hka]
          exact h'

theorem lookupStake_setStake_self (l : List (Pubkey × UserStake)) (a : Pubkey)
    (v : UserStake) : lookupStake (setStake l a v) a = some v := by
  induction l with
  | nil => simp [setStake, lookupStake]
  | cons hd tl ih =>
    obtain ⟨k, w⟩ := hd
    by_cases hk : k = a
    · subst hk
      simp [setStake, lookupStake]
    · simp [setStake, lookupStake, hk, ih]

/-! ## Success specifications of the full instructions -/

theorem stakeIx_ok_spec {s s' : ProgramState} {caller targetAddr : Pubkey}
    {userBal : Nat} {now : Int} {usBump amount : Nat}
    (h : stakeIx s caller targetAddr userBal now usBump amount = .ok s') :
    targetAddr = userStakeAddress s.poolKey caller ∧
    0 < amount ∧
    s'.poolKey = s.poolKey ∧
    s'.pool.total_staked = s.pool.total_staked + amount ∧
    s'.pool.authority = s.pool.authority ∧
    s'.pool.token_mint = s.pool.token_mint ∧
    s'.pool.vault = s.pool.vault ∧
    s'.pool.bump = s.pool.bump ∧
    s'.pool.vault_bump = s.pool.vault_bump ∧
    s'.vaultBalance = s.vaultBalance + amount ∧
    ∃ us', s'.stakes = setStake s.stakes targetAddr us' ∧
      us'.amount = ((lookupStake s.stakes targetAddr).getD freshUserStake).amount + amount ∧
      us'.staked_at = now ∧
      us'.bump = usBump ∧
      us'.owner =
        (if ((lookupStake s.stakes targetAddr).getD freshUserStake).amount = 0 then caller
         else ((lookupStake s.stakes targetAddr).getD freshUserStake).owner) := by
  unfold stakeIx at h
  split at h
  next hseed =>
    split at h
    next e heq => exact absurd h (by simp)
    next c heq =>
      have hraw := stakeCommit_ok_iff.mp heq
      obtain ⟨h1, h2, h3, h4, h5, h6, h7, h8, h9, h10, h11, h12, h13, h14, h15, h16⟩ :=
        stakeRaw_ok_spec hraw
      have hs' := Except.ok.inj h
      subst hs'
      exact ⟨hseed, h1, rfl, h5, h6, h7, h8, h9, h10, h15, c.user_stake, rfl,
        h11, h12, h14, h13⟩
  next hseed => exact absurd h (by simp)

theorem unstakeIx_ok_spec {s s' : ProgramState} {caller targetAddr : Pubkey}
    {userBal : Nat} (h : unstakeIx s caller targetAddr userBal = .ok s') :
    ∃ us, lookupStake s.stakes targetAddr = some us ∧
      targetAddr = userStakeAddress s.poolKey caller ∧
      us.owner = caller ∧
      0 < us.amount ∧
      us.amount ≤ s.vaultBalance ∧
      us.amount ≤ s.pool.total_staked ∧
      s'.poolKey = s.poolKey ∧
      s'.pool.total_staked = s.pool.total_staked - us.amount ∧
      s'.pool.authority = s.pool.authority ∧
      s'.pool.token_mint = s.pool.token_mint ∧
      s'.pool.vault = s.pool.vault ∧
      s'.pool.bump = s.pool.bump ∧
      s'.pool.vault_bump = s.pool.vault_bump ∧
      s'.vaultBalance = s.vaultBalance - us.amount ∧
      ∃ us', s'.stakes = setStake s.stakes targetAddr us' ∧
        us'.amount = 0 ∧ us'.staked_at = 0 ∧ us'.owner = us.owner ∧
        us'.bump = us.bump := by
  unfold unstakeIx at h
  split at h
  next hlk => exact absurd h (by simp)
  next us hlk =>
    split at h
    next hseed =>
      split at h
      next hown =>
        split at h
        next e heq => exact absurd h (by simp)
        next c heq =>
          have hraw := unstakeCommit_ok_iff.mp heq
          obtain ⟨g1, g2, g3, g4, g5, g6, g7, g8, g9, g10, g11, g12, g13, g14, g15⟩ :=
            unstakeRaw_ok_spec hraw
          have hs' := Except.ok.inj h
          subst hs'
          exact ⟨us, hlk, hseed, hown, g1, g2, g3, rfl, g4, g5, g6, g7, g8, g9, g14,
            c.user_stake, rfl, g10, g11, g12, g13⟩
      next hown => exact absurd h (by simp)
    next hseed => exact absurd h (by simp)

/-! ## Invariants of all reachable states -/

/-- The §3 ledger-consistency invariant: the pool total equals the sum of all
stored position amounts. -/
def TotalInv (s : ProgramState) : Prop :=
  s.pool.total_staked = sumAmounts s.stakes

/-- Structural well-formedness of the position store: every stored position
sits at the PDA derived from its recorded owner, and a position with zero
balance has a zeroed timestamp. -/
def PosInv (s : ProgramState) : Prop :=
  ∀ a us, lookupStake s.stakes a = some us →
    a = userStakeAddress s.poolKey us.owner ∧ (us.amount = 0 → us.staked_at = 0)

theorem reachable_total_eq_sum {s : ProgramState} (h : Reachable s) : TotalInv s := by
  induction h with
  | init poolKey authority token_mint vault bump vault_bump => rfl
  | stake s s' caller targetAddr userBal now usBump amount hr heq ih =>
    obtain ⟨hseed, hpos, hpk, htot, -, -, -, -, -, -, us', hset, hamt, -, -, -⟩ :=
      stakeIx_ok_spec heq
    have hsum := sumAmounts_setStake s.stakes targetAddr us'
    unfold TotalInv at ih ⊢
    rw [htot, hset]
    omega
  | unstake s s' caller targetAddr userBal hr heq ih =>
    obtain ⟨us, hlk, hseed, hown, hpos, hv, hle, hpk, htot, -, -, -, -, -, -,
      us', hset, hamt, -, -, -⟩ := unstakeIx_ok_spec heq
    have hsum := sumAmounts_setStake s.stakes targetAddr us'
    rw [hlk] at hsum
    simp only [Option.getD_some] at hsum
    unfold TotalInv at ih ⊢
    rw [htot, hset]
    omega

theorem reachable_posInv {s : ProgramState} (h : Reachable s) : PosInv s := by
  induction h with
  | init poolKey authority token_mint vault bump vault_bump =>
    intro a us h
    exact absurd h (by simp [initState, lookupStake])
  | stake s s' caller targetAddr userBal now usBump amount hr heq ih =>
    obtain ⟨hseed, hpos, hpk, htot, -, -, -, -, -, -, us', hset, hamt, -, -, howner⟩ :=
      stakeIx_ok_spec heq
    intro a us h
    rw [hset] at h
    rw [hpk]
    rcases lookupStake_setStake h with ⟨ha, hus⟩ | hold
    · subst ha
      subst hus
      constructor
      · by_cases h0 : ((lookupStake s.stakes a).getD freshUserStake).amount = 0
        · rw [if_pos h0] at howner
          rw [howner]
          exact hseed
        · rw [if_neg h0] at howner
          rcases hl : lookupStake s.stakes a with _ | us0
          · rw [hl] at h0
            exact absurd rfl h0
          · rw [hl] at howner
            rw [howner]
            have := (ih a us0 hl).1
            exact this
      · intro h0
        exact absurd h0 (by omega)
    · exact ih a us hold
  | unstake s s' caller targetAddr userBal hr heq ih =>
    obtain ⟨us0, hlk, hseed, hown, hpos, hv, hle, hpk, htot, -, -, -, -, -, -,
      us', hset, hamt, hstk, howner, -⟩ := unstakeIx_ok_spec heq
    intro a us h
    rw [hset] at h
    rw [hpk]
    rcases lookupStake_setStake h with ⟨ha, hus⟩ | hold
    · subst ha
      subst hus
      refine ⟨?_, fun _ => hstk⟩
      rw [howner]
      exact (ih a us0 hlk).1
    · exact ih a us hold

/-- If the position's whole balance is covered by the pool total, the `unstake`
body can never hit the `Underflow` branch of the checked subtraction. -/
theorem unstakeRaw_no_underflow {ctx : StakeCtx}
    (h : ctx.user_stake.amount ≤ ctx.pool.total_staked) :
    (unstakeRaw ctx).2 ≠ some (.staking .Underflow) := by
  unfold unstakeRaw
  split
  · simp
  · split
    · simp
    · split
      next hcs =>
        exfalso
        unfold checked_sub at hcs
        rw [if_pos h] at hcs
        exact absurd hcs (by simp)
      next nt hcs => simp

/-! ## Concrete example states used as witnesses -/

def exState0 : ProgramState := initState 10 1 2 3 0 0

def exState1 : ProgramState :=
  { poolKey := 10
    pool := ⟨1, 2, 3, 100, 0, 0⟩
    stakes := [(117, ⟨7, 100, 0, 1⟩)]
    vaultBalance := 100 }

def exState2 : ProgramState :=
  { poolKey := 10
    pool := ⟨1, 2, 3, 0, 0, 0⟩
    stakes := [(117, ⟨7, 0, 0, 1⟩)]
    vaultBalance := 0 }

theorem reachable_exState1 : Reachable exState1 :=
  Reachable.stake exState0 exState1 7 117 500 0 1 100
    (Reachable.init 10 1 2 3 0 0) (by rfl)

theorem reachable_exState2 : Reachable exState2 :=
  Reachable.unstake exState1 exState2 7 117 0 reachable_exState1 (by rfl)

/-! ## The claims -/

/-- C1: in every state reachable by any sequence of pool initialization,
stake and unstake operations, the pool's `total_staked` equals the sum of
`amount` over all stored `UserStake` positions of that pool. -/
theorem C1_pool_total_is_sum_of_positions {s : ProgramState} (h : Reachable s) :
    s.pool.total_staked = sumAmounts s.stakes :=
  reachable_total_eq_sum h

/-- Witness for C1 at a concrete reachable state (one completed stake). -/
theorem C1_pool_total_witness :
    Reachable exState1 ∧ exState1.pool.total_staked = sumAmounts exState1.stakes :=
  ⟨reachable_exState1, C1_pool_total_is_sum_of_positions reachable_exState1⟩

/-- C5: a stake call with `amount == 0` fails with `ZeroAmount` before the
token transfer runs and with every account untouched; conversely, with
`amount > 0` the body never raises `ZeroAmount`. -/
theorem C5_zero_amount_guard (ctx : StakeCtx) (u : Pubkey) (now : Int) (b : Nat) :
    stakeRaw ctx u now b 0 = (ctx, some (.staking .ZeroAmount)) ∧
    stakeCommit ctx u now b 0 = .error (.staking .ZeroAmount) ∧
    (∀ amount, 0 < amount →
      (stakeRaw ctx u now b amount).2 ≠ some (.staking .ZeroAmount)) ∧
    (∀ amount, 0 < amount →
      stakeCommit ctx u now b amount ≠ .error (.staking .ZeroAmount)) := by
  have hzero : stakeRaw ctx u now b 0 = (ctx, some (.staking .ZeroAmount)) := by
    unfold stakeRaw
    rw [if_pos rfl]
  have hconv : ∀ amount, 0 < amount →
      (stakeRaw ctx u now b amount).2 ≠ some (.staking .ZeroAmount) := by
    intro amount hpos
    have hne : amount ≠ 0 := Nat.pos_iff_ne_zero.mp hpos
    unfold stakeRaw
    rw [if_neg hne]
    split
    · simp
    · split
      · simp
      · split <;> simp
  refine ⟨hzero, ?_, hconv, ?_⟩
  · rw [stakeCommit_error_iff, hzero]
  · intro amount hpos hc
    exact hconv amount hpos (stakeCommit_error_iff.mp hc)

/-- Witness for C5 at a concrete context, with the converse instantiated at
amount 5. -/
theorem C5_zero_amount_witness :
    stakeRaw ⟨⟨1, 2, 3, 0, 0, 0⟩, ⟨0, 0, 0, 0⟩, 0, 10⟩ 7 0 1 0
      = (⟨⟨1, 2, 3, 0, 0, 0⟩, ⟨0, 0, 0, 0⟩, 0, 10⟩, some (.staking .ZeroAmount)) ∧
    (0 : Nat) < 5 ∧
    (stakeRaw ⟨⟨1, 2, 3, 0, 0, 0⟩, ⟨0, 0, 0, 0⟩, 0, 10⟩ 7 0 1 5).2
      ≠ some (.staking .ZeroAmount) :=
  ⟨(C5_zero_amount_guard ⟨⟨1, 2, 3, 0, 0, 0⟩, ⟨0, 0, 0, 0⟩, 0, 10⟩ 7 0 1).1,
   by decide,
   (C5_zero_amount_guard ⟨⟨1, 2, 3, 0, 0, 0⟩, ⟨0, 0, 0, 0⟩, 0, 10⟩ 7 0 1).2.2.1 5
     (by decide)⟩

/-- C6: after every successful stake call at clock time `now`, the targeted
position's `staked_at` equals `now` — in particular a top-up on a position
with an older timestamp resets it to the current time, regardless of the
prior amount. -/
theorem C6_stake_resets_staked_at {s s' : ProgramState} {caller targetAddr : Pubkey}
    {userBal : Nat} {now : Int} {usBump amount : Nat}
    (h : stakeIx s caller targetAddr userBal now usBump amount = .ok s') :
    ∃ us', lookupStake s'.stakes targetAddr = some us' ∧ us'.staked_at = now := by
  obtain ⟨-, -, -, -, -, -, -, -, -, -, us', hset, -, hstk, -, -⟩ := stakeIx_ok_spec h
  exact ⟨us', by rw [hset]; exact lookupStake_setStake_self _ _ _, hstk⟩

/-- Witness for C6: a top-up at time 5 on a position staked at time 0. -/
theorem C6_stake_resets_witness :
    ∃ us', lookupStake
        ({ poolKey := 10, pool := ⟨1, 2, 3, 150, 0, 0⟩,
           stakes := [(117, ⟨7, 150, 5, 1⟩)],
           vaultBalance := 150 } : ProgramState).stakes 117
      = some us' ∧ us'.staked_at = 5 :=
  have h : stakeIx exState1 7 117 400 5 1 50
      = .ok { poolKey := 10, pool := ⟨1, 2, 3, 150, 0, 0⟩,
              stakes := [(117, ⟨7, 150, 5, 1⟩)],
              vaultBalance := 150 } := by rfl
  C6_stake_resets_staked_at h

/-- C7: the `Underflow` branch of the pool debit in `unstake` is unreachable
whenever the §3 invariant (pool total = sum of position amounts) holds in the
pre-state: the instruction never reports `Underflow`, and the checked
subtraction succeeds for any stored position. -/
theorem C7_underflow_unreachable {s : ProgramState}
    (hinv : s.pool.total_staked = sumAmounts s.stakes)
    (caller targetAddr : Pubkey) (userBal : Nat) :
    unstakeIx s caller targetAddr userBal ≠ .error (.staking .Underflow) ∧
    ∀ us, lookupStake s.stakes targetAddr = some us →
      checked_sub s.pool.total_staked us.amount
        = some (s.pool.total_staked - us.amount) := by
  constructor
  · unfold unstakeIx
    split
    · simp
    next us hlk =>
      split
      · split
        · split
          next e hec =>
            intro hg
            have he : e = .staking .Underflow := Except.error.inj hg
            subst he
            have h2 := unstakeCommit_error_iff.mp hec
            have hle : us.amount ≤ s.pool.total_staked := by
              rw [hinv]
              exact lookupStake_le_sumAmounts hlk
            exact unstakeRaw_no_underflow hle h2
          next c hec => simp
        · simp
      · simp
  · intro us hlk
    have hle : us.amount ≤ s.pool.total_staked := by
      rw [hinv]
      exact lookupStake_le_sumAmounts hlk
    unfold checked_sub
    rw [if_pos hle]

/-- Witness for C7 at a concrete consistent state. -/
theorem C7_underflow_witness :
    unstakeIx exState1 9 117 0 ≠ .error (.staking .Underflow) ∧
    checked_sub 100 100 = some 0 :=
  ⟨(C7_underflow_unreachable (s := exState1) rfl 9 117 0).1,
   (C7_underflow_unreachable (s := exState1) rfl 9 117 0).2 ⟨7, 100, 0, 1⟩ rfl⟩

/-- C8: the `initialize` body produces a pool whose `total_staked` is 0 and
whose authority, token mint (asset id), vault id and derivation bumps equal
the supplied inputs; the body itself is total — the only failure mode is
Anchor's `init` constraint rejecting a pool that already exists for the mint,
which runs before the body and creates nothing on failure. -/
theorem C8_init_pool_fields (authority token_mint vault bump vault_bump : Nat) :
    (initPool authority token_mint vault bump vault_bump).total_staked = 0 ∧
    (initPool authority token_mint vault bump vault_bump).authority = authority ∧
    (initPool authority token_mint vault bump vault_bump).token_mint = token_mint ∧
    (initPool authority token_mint vault bump vault_bump).vault = vault ∧
    (initPool authority token_mint vault bump vault_bump).bump = bump ∧
    (initPool authority token_mint vault bump vault_bump).vault_bump = vault_bump :=
  ⟨rfl, rfl, rfl, rfl, rfl, rfl⟩

/-- C9: in any reachable state, a stake or unstake call by an identity that
does not match the targeted position's recorded owner is rejected by account
validation (wrong PDA seeds, and for unstake also the owner constraint)
before the handler body — and hence before any mutation — runs. -/
theorem C9_unauthorized_rejected {s : ProgramState} (hr : Reachable s)
    {targetAddr caller : Pubkey} {us : UserStake}
    (hlk : lookupStake s.stakes targetAddr = some us) (hown : us.owner ≠ caller)
    (userBal : Nat) (now : Int) (usBump amount : Nat) :
    stakeIx s caller targetAddr userBal now usBump amount
      = .error .constraintViolation ∧
    unstakeIx s caller targetAddr userBal = .error .constraintViolation := by
  obtain ⟨haddr, -⟩ := reachable_posInv hr targetAddr us hlk
  have hne : targetAddr ≠ userStakeAddress s.poolKey caller := by
    rw [haddr]
    intro hpair
    exact hown (Nat.pair_eq_pair.mp hpair).2
  constructor
  · unfold stakeIx
    rw [if_neg hne]
  · unfold unstakeIx
    split
    next hnone => rfl
    next us1 hsome => rw [if_neg hne]

/-- Witness for C9: depositor 8 attacking depositor 7's position. -/
theorem C9_unauthorized_witness :
    (⟨7, 100, 0, 1⟩ : UserStake).owner ≠ 8 ∧
    stakeIx exState1 8 117 0 0 1 5 = .error .constraintViolation ∧
    unstakeIx exState1 8 117 0 = .error .constraintViolation :=
  have hlk : lookupStake exState1.stakes 117 = some ⟨7, 100, 0, 1⟩ := rfl
  ⟨by decide,
   (C9_unauthorized_rejected reachable_exState1 hlk (by decide) 0 0 1 5).1,
   (C9_unauthorized_rejected reachable_exState1 hlk (by decide) 0 0 1 5).2⟩

/-- C10: in every reachable state, a stored position with `amount = 0` has
`staked_at = 0` — fresh positions start zeroed, failed stakes commit nothing,
and `unstake` zeroes both fields together. -/
theorem C10_zero_amount_zero_timestamp {s : ProgramState} (hr : Reachable s)
    {a : Pubkey} {us : UserStake} (hlk : lookupStake s.stakes a = some us)
    (h0 : us.amount = 0) : us.staked_at = 0 :=
  (reachable_posInv hr a us hlk).2 h0

/-- Witness for C10: the zero-balance position left behind by a full
unstake. -/
theorem C10_zero_amount_zero_timestamp_witness :
    lookupStake exState2.stakes 117 = some ⟨7, 0, 0, 1⟩ ∧
    (⟨7, 0, 0, 1⟩ : UserStake).staked_at = 0 :=
  have hlk : lookupStake exState2.stakes 117 = some ⟨7, 0, 0, 1⟩ := rfl
  ⟨hlk, C10_zero_amount_zero_timestamp reachable_exState2 hlk rfl⟩

/-- C3: a stake whose amount would push the position's balance (or the pool
total) past `u64::MAX` fails with `Overflow`; the committed semantics
discards every handler mutation on error, so the position amount and the
pool total are unchanged.  The depositor is assumed to hold the staked
amount, so the transfer succeeds and the arithmetic check is reached. -/
theorem C3_stake_overflow_rejected (ctx : StakeCtx) (u : Pubkey) (now : Int)
    (b amount : Nat)
    (hus : ctx.user_stake.amount ≤ U64_MAX)
    (htot : ctx.pool.total_staked ≤ U64_MAX)
    (hbal : amount ≤ ctx.userTokenBalance)
    (hover : U64_MAX < ctx.user_stake.amount + amount ∨
             U64_MAX < ctx.pool.total_staked + amount) :
    stakeCommit ctx u now b amount = .error (.staking .Overflow) := by
  have hne : amount ≠ 0 := by rcases hover with h | h <;> omega
  rw [stakeCommit_error_iff]
  unfold stakeRaw
  rw [if_neg hne]
  unfold transfer
  rw [if_pos hbal]
  by_cases hc : ctx.user_stake.amount + amount ≤ U64_MAX
  · have hc2 : ¬ ctx.pool.total_staked + amount ≤ U64_MAX := by
      rcases hover with h | h <;> omega
    unfold checked_add
    rw [warmupReset_amount, if_pos hc, if_neg hc2]
  · unfold checked_add
    rw [warmupReset_amount, if_neg hc]

/-- Witness for C3: topping a position already at `u64::MAX` up by 1. -/
theorem C3_stake_overflow_witness :
    (⟨⟨1, 2, 3, 0, 0, 0⟩, ⟨7, U64_MAX, 0, 0⟩, 0, 5⟩ : StakeCtx).user_stake.amount
      ≤ U64_MAX ∧
    (1 : Nat) ≤ (⟨⟨1, 2, 3, 0, 0, 0⟩, ⟨7, U64_MAX, 0, 0⟩, 0, 5⟩ : StakeCtx).userTokenBalance ∧
    U64_MAX <
      (⟨⟨1, 2, 3, 0, 0, 0⟩, ⟨7, U64_MAX, 0, 0⟩, 0, 5⟩ : StakeCtx).user_stake.amount + 1 ∧
    stakeCommit ⟨⟨1, 2, 3, 0, 0, 0⟩, ⟨7, U64_MAX, 0, 0⟩, 0, 5⟩ 7 0 0 1
      = .error (.staking .Overflow) :=
  ⟨le_refl _, by decide, Nat.lt_succ_self _,
   C3_stake_overflow_rejected ⟨⟨1, 2, 3, 0, 0, 0⟩, ⟨7, U64_MAX, 0, 0⟩, 0, 5⟩ 7 0 0 1
     (le_refl _) (Nat.zero_le _) (by decide) (Or.inl (Nat.lt_succ_self _))⟩

/-- C2 counterexample: a depositor whose position already holds 100 stakes
100 more and then unstakes.  Both operations succeed, but the unstake pays
out 200 (the whole balance, not the 100 just staked), and the final pool
total is 100 below its pre-stake value instead of equal to it.  The claim's
"for every pool state and every depositor" is therefore false as stated. -/
theorem C2_round_trip_counterexample :
    stakeCommit ⟨⟨1, 2, 3, 100, 0, 0⟩, ⟨7, 100, 50, 0⟩, 100, 100⟩ 7 60 0 100
      = .ok ⟨⟨1, 2, 3, 200, 0, 0⟩, ⟨7, 200, 60, 0⟩, 200, 0⟩ ∧
    unstakeCommit ⟨⟨1, 2, 3, 200, 0, 0⟩, ⟨7, 200, 60, 0⟩, 200, 0⟩
      = .ok ⟨⟨1, 2, 3, 0, 0, 0⟩, ⟨7, 0, 0, 0⟩, 0, 200⟩ ∧
    (⟨⟨1, 2, 3, 0, 0, 0⟩, ⟨7, 0, 0, 0⟩, 0, 200⟩ : StakeCtx).userTokenBalance
      ≠ (⟨⟨1, 2, 3, 200, 0, 0⟩, ⟨7, 200, 60, 0⟩, 200, 0⟩ : StakeCtx).userTokenBalance
          + 100 ∧
    (⟨⟨1, 2, 3, 0, 0, 0⟩, ⟨7, 0, 0, 0⟩, 0, 200⟩ : StakeCtx).pool.total_staked
      ≠ (⟨⟨1, 2, 3, 100, 0, 0⟩, ⟨7, 100, 50, 0⟩, 100, 100⟩ : StakeCtx).pool.total_staked :=
  ⟨rfl, rfl, by decide, by decide⟩

/-- C2 (amended): for a depositor whose position starts empty
(`amount = 0`), a successful stake of 100 followed immediately by unstake
always succeeds, returns exactly 100 to the depositor, leaves the position
with `amount = 0` and `staked_at = 0`, and restores the pool total to its
pre-stake value (100 below the post-stake state). -/
theorem C2_round_trip_amended {ctx ctx1 : StakeCtx} {u : Pubkey} {now : Int}
    {b : Nat} (h0 : ctx.user_stake.amount = 0)
    (h : stakeCommit ctx u now b 100 = .ok ctx1) :
    ∃ ctx2, unstakeCommit ctx1 = .ok ctx2 ∧
      ctx2.userTokenBalance = ctx1.userTokenBalance + 100 ∧
      ctx2.user_stake.amount = 0 ∧
      ctx2.user_stake.staked_at = 0 ∧
      ctx2.pool.total_staked = ctx.pool.total_staked ∧
      ctx1.pool.total_staked = ctx2.pool.total_staked + 100 := by
  obtain ⟨-, -, -, -, htot1, -, -, -, -, -, hamt1, -, -, -, hvb1, -⟩ :=
    stakeRaw_ok_spec (stakeCommit_ok_iff.mp h)
  rw [h0] at hamt1
  have hamt1' : ctx1.user_stake.amount = 100 := by omega
  have hraw : unstakeRaw ctx1 =
      ({ ctx1 with
           vaultBalance := ctx1.vaultBalance - ctx1.user_stake.amount
           userTokenBalance := ctx1.userTokenBalance + ctx1.user_stake.amount
           pool := { ctx1.pool with
                       total_staked :=
                         ctx1.pool.total_staked - ctx1.user_stake.amount }
           user_stake := { ctx1.user_stake with amount := 0, staked_at := 0 } },
       none) := by
    unfold unstakeRaw
    rw [if_neg (by omega : ¬ ctx1.user_stake.amount = 0)]
    unfold transfer
    rw [if_pos (by omega : ctx1.user_stake.amount ≤ ctx1.vaultBalance)]
    unfold checked_sub
    rw [if_pos (by omega : ctx1.user_stake.amount ≤ ctx1.pool.total_staked)]
  refine ⟨_, unstakeCommit_ok_iff.mpr hraw, ?_, ?_, ?_, ?_, ?_⟩ <;> dsimp <;> omega

/-- Witness for C2 (amended): a fresh depositor staking 100 at time 42. -/
theorem C2_round_trip_witness :
    ∃ ctx2, unstakeCommit ⟨⟨1, 2, 3, 100, 0, 0⟩, ⟨7, 100, 42, 1⟩, 100, 0⟩
        = .ok ctx2 ∧
      ctx2.userTokenBalance
        = (⟨⟨1, 2, 3, 100, 0, 0⟩, ⟨7, 100, 42, 1⟩, 100, 0⟩ : StakeCtx).userTokenBalance
            + 100 ∧
      ctx2.user_stake.amount = 0 ∧
      ctx2.user_stake.staked_at = 0 ∧
      ctx2.pool.total_staked
        = (⟨⟨1, 2, 3, 0, 0, 0⟩, ⟨0, 0, 0, 0⟩, 0, 100⟩ : StakeCtx).pool.total_staked ∧
      (⟨⟨1, 2, 3, 100, 0, 0⟩, ⟨7, 100, 42, 1⟩, 100, 0⟩ : StakeCtx).pool.total_staked
        = ctx2.pool.total_staked + 100 :=
  have h : stakeCommit ⟨⟨1, 2, 3, 0, 0, 0⟩, ⟨0, 0, 0, 0⟩, 0, 100⟩ 7 42 1 100
      = .ok ⟨⟨1, 2, 3, 100, 0, 0⟩, ⟨7, 100, 42, 1⟩, 100, 0⟩ := by rfl
  C2_round_trip_amended rfl h

/-- C4 counterexample: unstaking a position that was never created fails at
Anchor account validation (the `user_stake` account cannot even be
deserialized), not with the program's `NoStake` error, so "fails with the
NoStake error" is false for the never-created case. -/
theorem C4_no_stake_counterexample :
    unstakeIx (initState 10 1 2 3 0 0) 7 (userStakeAddress 10 7) 0
      = .error .constraintViolation ∧
    (Except.error ProgErr.constraintViolation : Except ProgErr ProgramState)
      ≠ .error (.staking .NoStake) :=
  ⟨rfl, by simp⟩

/-- C4 (amended): unstaking an existing, correctly targeted position whose
`amount` is 0 fails with `NoStake` — with the handler body touching nothing,
even before the transactional rollback — while unstaking a never-created
position fails at account validation instead of with `NoStake`; in both
cases no part of the state (position, pool total, vault) is mutated. -/
theorem C4_no_stake_amended (s : ProgramState) (caller targetAddr : Pubkey)
    (userBal : Nat) :
    (lookupStake s.stakes targetAddr = none →
      unstakeIx s caller targetAddr userBal = .error .constraintViolation) ∧
    (∀ us, lookupStake s.stakes targetAddr = some us → us.amount = 0 →
      targetAddr = userStakeAddress s.poolKey caller → us.owner = caller →
      unstakeIx s caller targetAddr userBal = .error (.staking .NoStake)) ∧
    (∀ ctx : StakeCtx, ctx.user_stake.amount = 0 →
      unstakeRaw ctx = (ctx, some (.staking .NoStake))) := by
  refine ⟨?_, ?_, ?_⟩
  · intro hlk
    unfold unstakeIx
    rw [hlk]
  · intro us hlk h0 hseed hown
    have hc : unstakeCommit
        { pool := s.pool, user_stake := us, vaultBalance := s.vaultBalance,
          userTokenBalance := userBal } = .error (.staking .NoStake) := by
      rw [unstakeCommit_error_iff]
      unfold unstakeRaw
      rw [if_pos h0]
    unfold unstakeIx
    rw [hlk]
    dsimp only
    rw [if_pos hseed, if_pos hown, hc]
  · intro ctx h0
    unfold unstakeRaw
    rw [if_pos h0]

/-- Witness for C4 (amended), on the post-unstake state `exState2`: the
owner unstaking their zero-balance position gets `NoStake`; a caller
targeting their own never-created position fails account validation; the
raw body leaves a zero-balance context untouched. -/
theorem C4_no_stake_witness :
    unstakeIx exState2 8 (userStakeAddress 10 8) 5 = .error .constraintViolation ∧
    unstakeIx exState2 7 117 5 = .error (.staking .NoStake) ∧
    unstakeRaw ⟨⟨1, 2, 3, 0, 0, 0⟩, ⟨7, 0, 0, 1⟩, 0, 0⟩
      = (⟨⟨1, 2, 3, 0, 0, 0⟩, ⟨7, 0, 0, 1⟩, 0, 0⟩, some (.staking .NoStake)) :=
  have hlk : lookupStake exState2.stakes 117 = some ⟨7, 0, 0, 1⟩ := rfl
  ⟨(C4_no_stake_amended exState2 8 (userStakeAddress 10 8) 5).1 rfl,
   (C4_no_stake_amended exState2 7 117 5).2.1 ⟨7, 0, 0, 1⟩ hlk rfl rfl rfl,
   (C4_no_stake_amended exState2 7 117 5).2.2 ⟨⟨1, 2, 3, 0, 0, 0⟩, ⟨7, 0, 0, 1⟩, 0, 0⟩
     rfl⟩

end GreedStaking
